import Mathlib

/-!
Shallow embedding of `src/Text_Adventure_Game.py` (a single-file text
adventure game) and verification of its specification claims.

Modelling conventions:
* Python `int` is `Int`; item/enemy names are stored lower-cased exactly as
  the Python constructors do (`name.lower()`).
* The mutable object graph (rooms referenced by the player and by exits) is
  flattened into a store `rooms : RoomKey → Room` plus `RoomKey` references;
  the six rooms are exactly those built in `Game.create_world`.
* Randomness (`random.randint`, `random.random`) and the in-combat prompt
  are passed in explicitly as an oracle (`Round`); `random.random() < 0.4`
  is modelled as a rational draw compared with `2/5`.
* `print` output is modelled as a `List String` of the printed lines for the
  command handlers; the combat transcript itself is not tracked.
-/

namespace Adventure

/-- ASCII lower-casing of one character, as Python's `str.lower` acts on the
ASCII letters appearing in this game's data and commands. -/
def asciiLower (c : Char) : Char :=
  if 'A' ≤ c ∧ c ≤ 'Z' then Char.ofNat (c.toNat + 32) else c

/-- Model of Python's `str.lower()`. -/
def strLower (s : String) : String := ⟨s.data.map asciiLower⟩

/-- Auxiliary scanner for `pyWords`: splits on runs of whitespace. -/
def pyWordsAux : List Char → List Char → List String
  | [], acc => if acc.isEmpty then [] else [⟨acc.reverse⟩]
  | c :: cs, acc =>
    if c = ' ' ∨ c = '\t' ∨ c = '\n' then
      if acc.isEmpty then pyWordsAux cs [] else ⟨acc.reverse⟩ :: pyWordsAux cs []
    else pyWordsAux cs (c :: acc)

/-- Model of Python's `str.split()` with no argument: split on whitespace
runs, dropping empty fields. -/
def pyWords (s : String) : List String := pyWordsAux s.data []

/-- `" ".join(parts)`, as used for multi-word command arguments. -/
def joinWords (l : List String) : String := String.intercalate " " l

/-- `a` starts with `pre` (model of Python's `str.startswith`). -/
def strStarts (pre a : String) : Bool := go pre.data a.data
where
  go : List Char → List Char → Bool
    | [], _ => true
    | _ :: _, [] => false
    | p :: ps, c :: cs => p = c && go ps cs

/-- `class Item`: name (lower-cased at construction), description, heal
amount, attack bonus. -/
structure Item where
  name : String
  description : String
  heal : Int
  attack_bonus : Int
deriving DecidableEq

/-- `Item.__init__`: stores `name.lower()`. -/
def Item.make (name description : String) (heal attack_bonus : Int) : Item :=
  ⟨strLower name, description, heal, attack_bonus⟩

/-- `class Enemy`: name (lower-cased at construction), hit points, attack
stat, description. -/
structure Enemy where
  name : String
  hp : Int
  attack : Int
  description : String
deriving DecidableEq

/-- `Enemy.__init__`: stores `name.lower()`. -/
def Enemy.make (name : String) (hp attack : Int) (description : String) : Enemy :=
  ⟨strLower name, hp, attack, description⟩

/-- `Enemy.is_alive` / `Player.is_alive`: health strictly positive. -/
def Enemy.alive (e : Enemy) : Bool := decide (0 < e.hp)

/-- Identifiers for the six rooms built in `Game.create_world`. -/
inductive RoomKey
  | foyer | hall | armory | kitchen | cellar | tower
deriving DecidableEq

/-- `class Room`: name, description, item list, enemy list, and the exit
dictionary (direction → room) kept in insertion order. -/
structure Room where
  name : String
  description : String
  items : List Item
  enemies : List Enemy
  exits : List (String × RoomKey)

/-- `class Player`. -/
structure Player where
  name : String
  currentRoom : RoomKey
  hp : Int
  baseAttack : Int
  inventory : List Item

/-- The whole mutable state of a `Game`: the room store and the player. -/
structure GameState where
  rooms : RoomKey → Room
  player : Player

/-- `Player.attack_value`: base attack plus the attack bonuses of all
inventory items. -/
def attackValue (p : Player) : Int :=
  p.baseAttack + (p.inventory.map Item.attack_bonus).sum

/-- Default item used to make positional access total; never observable at
valid indices. -/
def dItem : Item := ⟨"", "", 0, 0⟩

/-- Default enemy (dead) used to make positional access total. -/
def dEnemy : Enemy := ⟨"", 0, 0, ""⟩

/-- The enemy object at position `ei` of room `rk`'s enemy list. -/
def theEnemy (g : GameState) (rk : RoomKey) (ei : Nat) : Enemy :=
  ((g.rooms rk).enemies).getD ei dEnemy

/-- Replace the room stored at key `rk`. -/
def setRoom (g : GameState) (rk : RoomKey) (r : Room) : GameState :=
  { g with rooms := fun k => if k = rk then r else g.rooms k }

/-- Reassign the player's current room (movement / fleeing). -/
def setPlayerRoom (g : GameState) (rk : RoomKey) : GameState :=
  { g with player := { g.player with currentRoom := rk } }

/-- Names of the currently alive enemies of a room, as filtered for the
`Enemies here:` description line. -/
def aliveNames (r : Room) : List String :=
  (r.enemies.filter Enemy.alive).map Enemy.name

/-- `Room.get_description`. -/
def Room.get_description (r : Room) : String :=
  String.intercalate "\n"
    (["You are in " ++ r.name ++ ".", r.description]
      ++ (if r.items.isEmpty then []
          else ["You see the following items: "
                 ++ String.intercalate ", " (r.items.map Item.name)])
      ++ (if r.enemies.isEmpty then []
          else if (aliveNames r).isEmpty then []
          else ["Enemies here: " ++ String.intercalate ", " (aliveNames r)])
      ++ (if r.exits.isEmpty then []
          else ["Exits: " ++ String.intercalate ", " (r.exits.map Prod.fst)]))

/-- The rooms built by `Game.create_world`, with items, enemies and exits
exactly as placed there (exit lists in dictionary insertion order). -/
def initialRooms : RoomKey → Room
  | .foyer =>
    { name := "Foyer"
      description := "A small entrance hall. Dusty, with old portraits."
      items := [Item.make "Small Potion" "A red potion. Restores 10 HP." 10 0]
      enemies := []
      exits := [("north", .hall)] }
  | .hall =>
    { name := "Great Hall"
      description := "A wide hall with a long table. Shadows flicker."
      items := []
      enemies := [Enemy.make "Goblin" 14 4 "Sneaky and mean."]
      exits := [("south", .foyer), ("east", .armory), ("west", .kitchen), ("up", .tower)] }
  | .armory =>
    { name := "Armory"
      description := "Racks of old weapons; one looks usable."
      items := [Item.make "Rusty Sword" "An old rusty sword. Adds to attack." 0 3]
      enemies := []
      exits := [("west", .hall)] }
  | .kitchen =>
    { name := "Kitchen"
      description := "A greasy kitchen with broken pots."
      items := [Item.make "Large Potion" "A larger potion. Restores 20 HP." 20 0]
      enemies := []
      exits := [("east", .hall), ("down", .cellar)] }
  | .cellar =>
    { name := "Cellar"
      description := "Damp and dark. You can hear something moving."
      items := []
      enemies := [Enemy.make "Giant Rat" 8 2 "A big gnawing rat."]
      exits := [("up", .kitchen)] }
  | .tower =>
    { name := "Tower Top"
      description := "A windy top of the tower with a view of the land."
      items := [Item.make "Glowing Gem" "A strange gem. Maybe valuable?" 0 0]
      enemies := [Enemy.make "Wraith" 25 7 "An eerie shadow-like thing guarding the top."]
      exits := [("down", .hall)] }

/-- The state right after `Game.__init__`: fresh world, player `Adventurer`
in the foyer with 30 HP, base attack 5 and an empty inventory. -/
def initialState : GameState :=
  { rooms := initialRooms
    player := { name := "Adventurer", currentRoom := .foyer, hp := 30
                baseAttack := 5, inventory := [] } }

/-- Index of the first element satisfying `p`, as the `for i, it in
enumerate(...)` searches of `cmd_take`, `cmd_use` and
`find_enemy_in_room` locate it. -/
def findFirst (p : α → Bool) : List α → Option Nat
  | [] => none
  | a :: as => if p a then some 0 else (findFirst p as).map (· + 1)

/-- The name comparison `it.name == item_name` of `cmd_take` / `cmd_use`
(both sides already lower-cased). -/
def takePred (lname : String) : Item → Bool := fun it => it.name == lname

/-- The match condition of `find_enemy_in_room`: name equality and
aliveness. -/
def enemyPred (lname : String) : Enemy → Bool :=
  fun e => e.name == lname && e.alive

/-- `Game.cmd_go`: dictionary lookup of the direction in the current room's
exits; failure leaves the state unchanged, success reassigns the player's
current room and prints the new room's description. -/
def cmd_go (g : GameState) (direction : String) : GameState × List String :=
  match ((g.rooms g.player.currentRoom).exits).find? (fun pr => pr.1 == direction) with
  | none => (g, ["You can\x27t go that way."])
  | some pr =>
    (setPlayerRoom g pr.2,
     ["You go " ++ direction ++ " to the " ++ (g.rooms pr.2).name ++ ".",
      Room.get_description (g.rooms pr.2)])

/-- `Game.cmd_take`: first case-insensitive name match in the current
room's item list is appended to the inventory and removed from the room. -/
def cmd_take (g : GameState) (item_name : String) : GameState × List String :=
  match findFirst (takePred (strLower item_name)) (g.rooms g.player.currentRoom).items with
  | none => (g, ["No such item here."])
  | some i =>
    (setRoom { g with player := { g.player with
        inventory := g.player.inventory
          ++ [((g.rooms g.player.currentRoom).items).getD i dItem] } }
      g.player.currentRoom
      { g.rooms g.player.currentRoom with
        items := ((g.rooms g.player.currentRoom).items).eraseIdx i },
     ["You took the " ++ (((g.rooms g.player.currentRoom).items).getD i dItem).name ++ "."])

/-- `Game.cmd_use`: first name match in the inventory; a positive heal
value is added to the player's health (no cap) and the item removed, a
non-positive heal value leaves everything unchanged. -/
def cmd_use (g : GameState) (item_name : String) : GameState × List String :=
  match findFirst (takePred (strLower item_name)) g.player.inventory with
  | none => (g, ["You don\x27t have that item."])
  | some i =>
    if 0 < ((g.player.inventory).getD i dItem).heal then
      ({ g with player := { g.player with
           hp := g.player.hp + ((g.player.inventory).getD i dItem).heal,
           inventory := (g.player.inventory).eraseIdx i } },
       ["You used " ++ ((g.player.inventory).getD i dItem).name
          ++ " and restored " ++ toString ((g.player.inventory).getD i dItem).heal
          ++ " HP. Current HP: "
          ++ toString (g.player.hp + ((g.player.inventory).getD i dItem).heal)])
    else
      (g, ["You used " ++ ((g.player.inventory).getD i dItem).name
             ++ ", but nothing notable happened."])

/-- `Game.find_enemy_in_room`, returning the position of the first alive,
name-matching enemy of the current room. -/
def findEnemyIdx (g : GameState) (enemy_name : String) : Option Nat :=
  findFirst (enemyPred (strLower enemy_name)) (g.rooms g.player.currentRoom).enemies

/-- One round's worth of combat oracle: the player's `randint(0, 3)`, the
loot draw `random.random()`, the enemy's `randint(0, 2)`, and the text the
player types at the in-combat prompt (already stripped and lower-cased). -/
structure Round where
  r1 : Nat
  q : Rat
  r2 : Nat
  act : String

/-- The loot potion spawned on an enemy drop. -/
def lootItem : Item := Item.make "Small Potion" "A potion dropped by the enemy." 8 0

/-- The player's attack step: damage `max 1 (attack_value + randint(0,3))`
subtracted from the targeted enemy's health. -/
def playerStrike (g : GameState) (rk : RoomKey) (ei : Nat) (r1 : Nat) : GameState :=
  setRoom g rk
    { g.rooms rk with
      enemies := ((g.rooms rk).enemies).set ei
        { theEnemy g rk ei with
          hp := (theEnemy g rk ei).hp - max 1 (attackValue g.player + (r1 : Int)) } }

/-- The enemy's attack step: damage `max 1 (enemy.attack + randint(0,2))`
subtracted from the player's health. -/
def enemyStrike (g : GameState) (rk : RoomKey) (ei : Nat) (r2 : Nat) : GameState :=
  { g with player := { g.player with
      hp := g.player.hp - max 1 ((theEnemy g rk ei).attack + (r2 : Int)) } }

/-- Appending the dropped loot potion to the player's current room. -/
def addLoot (g : GameState) : GameState :=
  setRoom g g.player.currentRoom
    { g.rooms g.player.currentRoom with
      items := (g.rooms g.player.currentRoom).items ++ [lootItem] }

/-- Outcome of one iteration of the combat `while` loop. -/
inductive RoundOut
  | won (g : GameState)
  | died (g : GameState)
  | fled (g : GameState)
  | next (g : GameState)

/-- The state carried by a round outcome. -/
def RoundOut.state : RoundOut → GameState
  | .won g => g
  | .died g => g
  | .fled g => g
  | .next g => g

/-- Handling of the in-combat prompt: `flee` relocates to the foyer and
ends combat, `use <item>` re-enters the command handler's use branch, and
anything else (including `c` and empty input) continues the fight. -/
def combatAction (g : GameState) (a : String) : RoundOut :=
  if a = "flee" then .fled (setPlayerRoom g .foyer)
  else if strStarts "use " a then
    match pyWords a with
    | [] => .next g
    | _ :: rest => if rest.isEmpty then .next g else .next (cmd_use g (joinWords rest)).1
  else .next g

/-- One iteration of the combat loop body of `Game.cmd_fight`. -/
def fightRound (g : GameState) (rk : RoomKey) (ei : Nat) (o : Round) : RoundOut :=
  if (theEnemy (playerStrike g rk ei o.r1) rk ei).hp ≤ 0 then
    .won (if o.q < mkRat 2 5 then addLoot (playerStrike g rk ei o.r1)
          else playerStrike g rk ei o.r1)
  else if (enemyStrike (playerStrike g rk ei o.r1) rk ei o.r2).player.hp ≤ 0 then
    .died (enemyStrike (playerStrike g rk ei o.r1) rk ei o.r2)
  else combatAction (enemyStrike (playerStrike g rk ei o.r1) rk ei o.r2) o.act

/-- Final outcome of the combat loop; `broke` is the silent fall-through
when the `while` condition fails at the top. -/
inductive FightResult
  | won (g : GameState)
  | died (g : GameState)
  | fled (g : GameState)
  | broke (g : GameState)

/-- The state carried by a fight result. -/
def FightResult.state : FightResult → GameState
  | .won g => g
  | .died g => g
  | .fled g => g
  | .broke g => g

/-- The combat `while` loop of `Game.cmd_fight`, consuming one oracle
`Round` per iteration; `none` means the oracle ran out while combat was
still ongoing. -/
def fightLoop (rk : RoomKey) (ei : Nat) (g : GameState) : List Round → Option FightResult
  | [] =>
    if 0 < (theEnemy g rk ei).hp ∧ 0 < g.player.hp then none else some (.broke g)
  | o :: os =>
    if 0 < (theEnemy g rk ei).hp ∧ 0 < g.player.hp then
      match fightRound g rk ei o with
      | .won g' => some (.won g')
      | .died g' => some (.died g')
      | .fled g' => some (.fled g')
      | .next g' => fightLoop rk ei g' os
    else some (.broke g)

/-- `Game.cmd_fight`: target lookup then the combat loop (the combat
transcript's printed lines are not tracked). -/
def cmd_fight (g : GameState) (enemy_name : String) (rounds : List Round) :
    Option (GameState × List String) :=
  match findEnemyIdx g enemy_name with
  | none => some (g, ["No such enemy here."])
  | some ei =>
    (fightLoop g.player.currentRoom ei g rounds).map (fun res => (res.state, []))

/-- The `help` text block. -/
def helpText : String :=
  "Commands:\n  go <direction>      Move to a room (north, south, east, west, up, down).\n  look                Show the current room description again.\n  take <item>         Pick up an item.\n  inventory           Show your items and stats.\n  use <item>          Use an item from inventory (e.g. potion).\n  fight <enemy>       Engage an enemy in the room.\n  help                Show this help text.\n  quit                Quit the game."

/-- `Item.__str__`. -/
def Item.str (it : Item) : String :=
  String.intercalate " "
    ([it.name]
      ++ (if it.heal ≠ 0 then ["(heals " ++ toString it.heal ++ ")"] else [])
      ++ (if it.attack_bonus ≠ 0 then ["(atk +" ++ toString it.attack_bonus ++ ")"] else []))

/-- `Player.__str__`. -/
def Player.str (p : Player) : String :=
  p.name ++ " (HP: " ++ toString p.hp ++ ", ATK: " ++ toString (attackValue p) ++ ")"

/-- `Game.cmd_inventory`'s printed lines. -/
def cmd_inventory (g : GameState) : GameState × List String :=
  (g, [Player.str g.player]
        ++ (if g.player.inventory.isEmpty then ["Inventory is empty."]
            else ["Inventory:"] ++ g.player.inventory.map (fun it => " - " ++ Item.str it)))

/-- `Game.handle_command`: verb dispatch over the split input line.
`none` models the `IndexError` a whitespace-only line would raise (the main
loop never passes one). -/
def handleCommand (g : GameState) (cmd_line : String) (rounds : List Round) :
    Option (GameState × List String) :=
  match pyWords cmd_line with
  | [] => none
  | cmd :: rest =>
    if cmd = "help" then some (g, [helpText])
    else if cmd = "look" then
      some (g, [Room.get_description (g.rooms g.player.currentRoom)])
    else if cmd = "inventory" then some (cmd_inventory g)
    else if cmd = "go" then
      match rest with
      | [] => some (g, ["Go where? Usage: go <direction>"])
      | d :: _ => some (cmd_go g d)
    else if cmd = "take" then
      match rest with
      | [] => some (g, ["Take what? Usage: take <item>"])
      | _ :: _ => some (cmd_take g (joinWords rest))
    else if cmd = "fight" then
      match rest with
      | [] => some (g, ["Fight whom? Usage: fight <enemy>"])
      | _ :: _ => cmd_fight g (joinWords rest) rounds
    else if cmd = "use" then
      match rest with
      | [] => some (g, ["Use what? Usage: use <itemname>"])
      | _ :: _ => some (cmd_use g (joinWords rest))
    else some (g, ["Unknown command. Type \x27help\x27 for commands."])

/-- Validity of one oracle round: the dice stay in the ranges
`randint(0,3)` / `randint(0,2)` and the loot draw in `[0, 1)`. -/
def ValidRound (o : Round) : Prop :=
  o.r1 ≤ 3 ∧ o.r2 ≤ 2 ∧ 0 ≤ o.q ∧ o.q < 1

instance : DecidablePred ValidRound := fun o => by
  unfold ValidRound; infer_instance

/-- One observable transition of the game: the main loop lower-cases a
nonempty input line and hands it to `handle_command`, with a valid random
oracle. -/
def Step (g g' : GameState) : Prop :=
  ∃ line rounds out, (∀ o ∈ rounds, ValidRound o) ∧
    handleCommand g (strLower line) rounds = some (g', out)

/-- States reachable from the freshly constructed game. -/
def Reachable (g : GameState) : Prop :=
  Relation.ReflTransGen Step initialState g

/-- Run a scripted sequence of (input line, oracle) pairs through the
dispatcher. -/
def runTrace (g : GameState) : List (String × List Round) → Option GameState
  | [] => some g
  | (line, rounds) :: rest =>
    match handleCommand g line rounds with
    | none => none
    | some (g', _) => runTrace g' rest

/-! ### Invariants -/

/-- The (lower-cased) names of an item list are pairwise distinct. -/
def NamesNodup (l : List Item) : Prop := (l.map Item.name).Nodup

/-- The inductive invariant carried through every reachable state: room
item names are distinct, a room still guarded by an alive enemy holds no
item named `small potion` (so a loot drop cannot duplicate a name), and no
room ever holds more than one enemy. -/
def Inv (g : GameState) : Prop :=
  (∀ rk, NamesNodup ((g.rooms rk).items)) ∧
  (∀ rk, (∃ e ∈ (g.rooms rk).enemies, 0 < e.hp) →
    "small potion" ∉ ((g.rooms rk).items).map Item.name) ∧
  (∀ rk, ((g.rooms rk).enemies).length ≤ 1)

/-! ### List helper lemmas -/

theorem findFirst_eq_none {α : Type _} {p : α → Bool} {l : List α} :
    findFirst p l = none ↔ ∀ a ∈ l, p a = false := by
  induction l with
  | nil => simp [findFirst]
  | cons a as ih =>
    by_cases h : p a <;>
      simp [findFirst, h, Option.map_eq_none', ih]

theorem findFirst_some {α : Type _} {p : α → Bool} {l : List α} {i : Nat} (d : α)
    (h : findFirst p l = some i) : i < l.length ∧ p (l.getD i d) = true := by
  induction l generalizing i with
  | nil => simp [findFirst] at h
  | cons a as ih =>
    by_cases hp : p a
    · simp [findFirst, hp] at h
      subst h
      simpa [List.getD] using hp
    · simp [findFirst, hp, Option.map_eq_some'] at h
      obtain ⟨j, hj, rfl⟩ := h
      obtain ⟨h1, h2⟩ := ih hj
      exact ⟨by simp only [List.length_cons]; omega, by simpa [List.getD] using h2⟩

theorem getD_oob {α : Type _} {l : List α} {i : Nat} (d : α) (h : l.length ≤ i) :
    l.getD i d = d := by
  simp [List.getD, List.getElem?_eq_none h]

theorem getD_mem {α : Type _} {l : List α} {i : Nat} (d : α) (h : i < l.length) :
    l.getD i d ∈ l := by
  simp [List.getD, List.getElem?_eq_getElem h]

theorem getD_set_self {α : Type _} {l : List α} {i : Nat} {a d : α} (h : i < l.length) :
    (l.set i a).getD i d = a := by
  induction l generalizing i with
  | nil => simp at h
  | cons b bs ih =>
    cases i with
    | zero => simp [List.getD]
    | succ j => simpa [List.getD] using ih (by simpa using h)

theorem getD_set_ne {α : Type _} {l : List α} {i j : Nat} {a d : α} (h : i ≠ j) :
    (l.set i a).getD j d = l.getD j d := by
  induction l generalizing i j with
  | nil => rfl
  | cons b bs ih =>
    cases i with
    | zero =>
      cases j with
      | zero => exact absurd rfl h
      | succ k => simp [List.getD]
    | succ i' =>
      cases j with
      | zero => simp [List.getD]
      | succ j' => simpa [List.getD] using ih (by omega)

theorem map_eraseIdx {α β : Type _} (f : α → β) (l : List α) (i : Nat) :
    (l.eraseIdx i).map f = (l.map f).eraseIdx i := by
  induction l generalizing i with
  | nil => rfl
  | cons a as ih =>
    cases i with
    | zero => rfl
    | succ j => simp [List.eraseIdx, ih]

/-- After removing the first name match from a list with distinct names,
no match remains. -/
theorem findFirst_eraseIdx_none {l : List Item} {n : String} {i : Nat}
    (hn : NamesNodup l) (h : findFirst (takePred n) l = some i) :
    findFirst (takePred n) (l.eraseIdx i) = none := by
  induction l generalizing i with
  | nil => simp [findFirst] at h
  | cons a as ih =>
    by_cases hp : takePred n a
    · simp [findFirst, hp] at h
      subst h
      rw [List.eraseIdx_zero, List.tail_cons, findFirst_eq_none]
      intro b hb
      have hnn : a.name ∉ as.map Item.name ∧ (as.map Item.name).Nodup := by
        have h0 : (List.map Item.name (a :: as)).Nodup := hn
        rw [List.map_cons, List.nodup_cons] at h0
        exact h0
      have han : a.name = n := by simpa [takePred] using hp
      by_contra hcon
      simp only [takePred, beq_iff_eq, Bool.not_eq_false] at hcon
      exact hnn.1 (by
        rw [han, ← hcon]
        exact List.mem_map_of_mem Item.name hb)
    · simp [findFirst, hp, Option.map_eq_some'] at h
      obtain ⟨j, hj, rfl⟩ := h
      have htail : NamesNodup as := by
        have h0 : (List.map Item.name (a :: as)).Nodup := hn
        rw [List.map_cons, List.nodup_cons] at h0
        exact h0.2
      have := ih htail hj
      simp [List.eraseIdx, findFirst, hp, this]

/-! ### Structural lemmas about the command handlers -/

theorem rooms_setPlayerRoom (g : GameState) (rk : RoomKey) :
    (setPlayerRoom g rk).rooms = g.rooms := rfl

theorem rooms_setRoom (g : GameState) (rk : RoomKey) (r : Room) (rk' : RoomKey) :
    (setRoom g rk r).rooms rk' = if rk' = rk then r else g.rooms rk' := rfl

theorem player_setRoom (g : GameState) (rk : RoomKey) (r : Room) :
    (setRoom g rk r).player = g.player := rfl

theorem rooms_cmd_go (g : GameState) (d : String) :
    ((cmd_go g d).1).rooms = g.rooms := by
  unfold cmd_go
  split <;> rfl

theorem rooms_cmd_use (g : GameState) (n : String) :
    ((cmd_use g n).1).rooms = g.rooms := by
  unfold cmd_use
  split
  · rfl
  · split <;> rfl

theorem currentRoom_cmd_use (g : GameState) (n : String) :
    ((cmd_use g n).1).player.currentRoom = g.player.currentRoom := by
  unfold cmd_use
  split
  · rfl
  · split <;> rfl

theorem currentRoom_cmd_take (g : GameState) (n : String) :
    ((cmd_take g n).1).player.currentRoom = g.player.currentRoom := by
  unfold cmd_take
  split <;> rfl

theorem enemies_cmd_take (g : GameState) (n : String) (rk' : RoomKey) :
    (((cmd_take g n).1).rooms rk').enemies = (g.rooms rk').enemies := by
  unfold cmd_take
  split
  · rfl
  · rw [rooms_setRoom]
    split
    · rename_i hrk
      subst hrk; rfl
    · rfl

/-- On a successful `take`, the matched item moves from the current room's
list to the end of the inventory; every other room is untouched. -/
theorem cmd_take_found (g : GameState) (n : String) (i : Nat)
    (h : findFirst (takePred (strLower n)) (g.rooms g.player.currentRoom).items = some i) :
    ((cmd_take g n).1).player.inventory
        = g.player.inventory ++ [((g.rooms g.player.currentRoom).items).getD i dItem] ∧
    (((cmd_take g n).1).rooms g.player.currentRoom).items
        = ((g.rooms g.player.currentRoom).items).eraseIdx i ∧
    (∀ rk', rk' ≠ g.player.currentRoom → ((cmd_take g n).1).rooms rk' = g.rooms rk') ∧
    ((cmd_take g n).1).player.currentRoom = g.player.currentRoom ∧
    ((cmd_take g n).1).player.hp = g.player.hp := by
  unfold cmd_take
  rw [h]
  refine ⟨rfl, ?_, ?_, rfl, rfl⟩
  · rw [rooms_setRoom, if_pos rfl]
  · intro rk' hne
    rw [rooms_setRoom, if_neg hne]

/-- A failed `take` changes nothing and reports failure. -/
theorem cmd_take_notFound (g : GameState) (n : String)
    (h : findFirst (takePred (strLower n)) (g.rooms g.player.currentRoom).items = none) :
    cmd_take g n = (g, ["No such item here."]) := by
  unfold cmd_take
  rw [h]

theorem inv_of_rooms_eq {g g' : GameState} (h : g'.rooms = g.rooms) (hi : Inv g) : Inv g' := by
  rw [Inv, h]
  exact hi

theorem inv_cmd_go (g : GameState) (d : String) (hi : Inv g) : Inv (cmd_go g d).1 :=
  inv_of_rooms_eq (rooms_cmd_go g d) hi

theorem inv_cmd_use (g : GameState) (n : String) (hi : Inv g) : Inv (cmd_use g n).1 :=
  inv_of_rooms_eq (rooms_cmd_use g n) hi

theorem inv_cmd_take (g : GameState) (n : String) (hi : Inv g) : Inv (cmd_take g n).1 := by
  rcases hfind : findFirst (takePred (strLower n)) (g.rooms g.player.currentRoom).items with
    _ | i
  · rw [cmd_take_notFound g n hfind]
    exact hi
  · obtain ⟨-, hcur, hoth, -, -⟩ := cmd_take_found g n i hfind
    obtain ⟨hi1, hi2, hi3⟩ := hi
    refine ⟨?_, ?_, ?_⟩
    · intro rk
      by_cases hrk : rk = g.player.currentRoom
      · subst hrk
        rw [hcur, NamesNodup, map_eraseIdx]
        exact (hi1 _).sublist (List.eraseIdx_sublist _ _)
      · rw [hoth rk hrk]
        exact hi1 rk
    · intro rk he
      by_cases hrk : rk = g.player.currentRoom
      · subst hrk
        rw [hcur]
        have he' : ∃ e ∈ (g.rooms g.player.currentRoom).enemies, 0 < e.hp := by
          rcases he with ⟨e, hmem, hhp⟩
          rw [enemies_cmd_take] at hmem
          exact ⟨e, hmem, hhp⟩
        intro hmem
        rw [map_eraseIdx] at hmem
        exact hi2 _ he' ((List.eraseIdx_sublist _ i).mem hmem)
      · rw [hoth rk hrk] at he ⊢
        exact hi2 rk he
    · intro rk
      rw [show ((cmd_take g n).1.rooms rk).enemies = (g.rooms rk).enemies from
            enemies_cmd_take g n rk] at *
      exact hi3 rk

/-! ### Structural lemmas about combat -/

theorem player_playerStrike (g : GameState) (rk : RoomKey) (ei : Nat) (r1 : Nat) :
    (playerStrike g rk ei r1).player = g.player := rfl

theorem items_playerStrike (g : GameState) (rk : RoomKey) (ei : Nat) (r1 : Nat)
    (rk' : RoomKey) :
    ((playerStrike g rk ei r1).rooms rk').items = (g.rooms rk').items := by
  unfold playerStrike
  rw [rooms_setRoom]
  split
  · rename_i hrk; subst hrk; rfl
  · rfl

theorem enemies_playerStrike_self (g : GameState) (rk : RoomKey) (ei : Nat) (r1 : Nat) :
    ((playerStrike g rk ei r1).rooms rk).enemies
      = ((g.rooms rk).enemies).set ei
          { theEnemy g rk ei with
            hp := (theEnemy g rk ei).hp - max 1 (attackValue g.player + (r1 : Int)) } := by
  unfold playerStrike
  rw [rooms_setRoom, if_pos rfl]

theorem enemies_playerStrike_ne (g : GameState) (rk : RoomKey) (ei : Nat) (r1 : Nat)
    (rk' : RoomKey) (h : rk' ≠ rk) :
    ((playerStrike g rk ei r1).rooms rk').enemies = (g.rooms rk').enemies := by
  unfold playerStrike
  rw [rooms_setRoom, if_neg h]

theorem rooms_enemyStrike (g : GameState) (rk : RoomKey) (ei : Nat) (r2 : Nat) :
    (enemyStrike g rk ei r2).rooms = g.rooms := rfl

theorem currentRoom_enemyStrike (g : GameState) (rk : RoomKey) (ei : Nat) (r2 : Nat) :
    (enemyStrike g rk ei r2).player.currentRoom = g.player.currentRoom := rfl

theorem hp_enemyStrike (g : GameState) (rk : RoomKey) (ei : Nat) (r2 : Nat) :
    (enemyStrike g rk ei r2).player.hp
      = g.player.hp - max 1 ((theEnemy g rk ei).attack + (r2 : Int)) := rfl

theorem enemies_addLoot (g : GameState) (rk' : RoomKey) :
    ((addLoot g).rooms rk').enemies = (g.rooms rk').enemies := by
  unfold addLoot
  rw [rooms_setRoom]
  split
  · rename_i hrk; subst hrk; rfl
  · rfl

theorem items_addLoot_self (g : GameState) :
    ((addLoot g).rooms g.player.currentRoom).items
      = (g.rooms g.player.currentRoom).items ++ [lootItem] := by
  unfold addLoot
  rw [rooms_setRoom, if_pos rfl]

theorem items_addLoot_ne (g : GameState) (rk' : RoomKey)
    (h : rk' ≠ g.player.currentRoom) :
    ((addLoot g).rooms rk').items = (g.rooms rk').items := by
  unfold addLoot
  rw [rooms_setRoom, if_neg h]

theorem player_addLoot (g : GameState) : (addLoot g).player = g.player := rfl

theorem rooms_combatAction (g : GameState) (a : String) :
    (combatAction g a).state.rooms = g.rooms := by
  unfold combatAction
  split
  · rfl
  · split
    · split
      · rfl
      · split
        · rfl
        · exact rooms_cmd_use ..
    · rfl

theorem combatAction_next (g g' : GameState) (a : String)
    (h : combatAction g a = .next g') :
    g'.rooms = g.rooms ∧ g'.player.currentRoom = g.player.currentRoom := by
  unfold combatAction at h
  split at h
  · cases h
  · split at h
    · split at h
      · cases h; exact ⟨rfl, rfl⟩
      · split at h
        · cases h; exact ⟨rfl, rfl⟩
        · cases h
          exact ⟨rooms_cmd_use .., currentRoom_cmd_use ..⟩
    · cases h; exact ⟨rfl, rfl⟩

theorem combatAction_flee (g : GameState) :
    combatAction g "flee" = .fled (setPlayerRoom g .foyer) := rfl

/-- In every outcome of a combat round, every room's enemy list is exactly
what the player's strike left it at (nothing later in the round touches
enemies). -/
theorem enemies_fightRound (g : GameState) (rk : RoomKey) (ei : Nat) (o : Round)
    (rk' : RoomKey) :
    ((fightRound g rk ei o).state.rooms rk').enemies
      = ((playerStrike g rk ei o.r1).rooms rk').enemies := by
  unfold fightRound
  split
  · split
    · simp only [RoundOut.state]
      rw [enemies_addLoot]
    · simp only [RoundOut.state]
  · split
    · simp only [RoundOut.state]
      rfl
    · rw [rooms_combatAction, rooms_enemyStrike]

/-- In every outcome of a combat round, item lists are unchanged except for
a possible loot drop into the player's current room when the enemy died and
the loot draw succeeded. -/
theorem items_fightRound (g : GameState) (rk : RoomKey) (ei : Nat) (o : Round)
    (rk' : RoomKey) :
    ((fightRound g rk ei o).state.rooms rk').items = (g.rooms rk').items ∨
    ((theEnemy (playerStrike g rk ei o.r1) rk ei).hp ≤ 0 ∧ o.q < mkRat 2 5 ∧
      rk' = g.player.currentRoom ∧
      ((fightRound g rk ei o).state.rooms rk').items
        = (g.rooms rk').items ++ [lootItem]) := by
  unfold fightRound
  split
  · rename_i hdead
    show ((RoundOut.won _).state.rooms rk').items = _ ∨ _
    split
    · rename_i hq
      by_cases hrk : rk' = (playerStrike g rk ei o.r1).player.currentRoom
      · subst hrk
        right
        refine ⟨hdead, hq, rfl, ?_⟩
        simp only [RoundOut.state]
        rw [items_addLoot_self, items_playerStrike]
      · left
        simp only [RoundOut.state]
        rw [items_addLoot_ne _ _ hrk, items_playerStrike]
    · left
      simp only [RoundOut.state]
      rw [items_playerStrike]
  · split
    · left
      show ((RoundOut.died _).state.rooms rk').items = _
      simp only [RoundOut.state]
      rw [show (enemyStrike (playerStrike g rk ei o.r1) rk ei o.r2).rooms
            = (playerStrike g rk ei o.r1).rooms from rfl, items_playerStrike]
    · left
      rw [show ((combatAction (enemyStrike (playerStrike g rk ei o.r1) rk ei o.r2)
              o.act).state.rooms)
            = (enemyStrike (playerStrike g rk ei o.r1) rk ei o.r2).rooms from
          rooms_combatAction .., show (enemyStrike (playerStrike g rk ei o.r1) rk ei
              o.r2).rooms = (playerStrike g rk ei o.r1).rooms from rfl,
        items_playerStrike]

/-- A `next` outcome keeps the player in the combat room. -/
theorem fightRound_next_currentRoom (g g' : GameState) (rk : RoomKey) (ei : Nat)
    (o : Round) (h : fightRound g rk ei o = .next g') :
    g'.player.currentRoom = g.player.currentRoom := by
  unfold fightRound at h
  split at h
  · split at h <;> cases h
  · split at h
    · cases h
    · have := combatAction_next _ _ _ h
      rw [this.2, currentRoom_enemyStrike]
      rw [show (playerStrike g rk ei o.r1).player = g.player from rfl]

/-! ### Enemy health monotonicity and loop lemmas -/

theorem lt_length_of_hp_pos {g : GameState} {rk : RoomKey} {ei : Nat}
    (h : 0 < (theEnemy g rk ei).hp) : ei < ((g.rooms rk).enemies).length := by
  by_contra hc
  rw [theEnemy, getD_oob _ (by omega)] at h
  exact absurd h (by simp [dEnemy])

theorem hp_playerStrike_le (g : GameState) (rk : RoomKey) (ei : Nat) (r1 : Nat)
    (rk' : RoomKey) (i : Nat) :
    (theEnemy (playerStrike g rk ei r1) rk' i).hp ≤ (theEnemy g rk' i).hp := by
  by_cases hrk : rk' = rk
  · subst hrk
    rw [theEnemy, enemies_playerStrike_self]
    by_cases hi : i = ei
    · subst hi
      by_cases hlen : i < ((g.rooms rk').enemies).length
      · rw [getD_set_self hlen]
        have h1 : (1 : Int) ≤ max 1 (attackValue g.player + (r1 : Int)) := le_max_left ..
        rw [theEnemy]
        dsimp only
        omega
      · rw [List.set_eq_of_length_le (by omega)]
        rw [theEnemy]
    · rw [getD_set_ne (by omega)]
      rw [theEnemy]
  · rw [theEnemy, enemies_playerStrike_ne _ _ _ _ _ hrk, theEnemy]

theorem hp_playerStrike_self_lt {g : GameState} {rk : RoomKey} {ei : Nat} (r1 : Nat)
    (h : 0 < (theEnemy g rk ei).hp) :
    (theEnemy (playerStrike g rk ei r1) rk ei).hp ≤ (theEnemy g rk ei).hp - 1 := by
  have hlen := lt_length_of_hp_pos h
  rw [theEnemy, enemies_playerStrike_self, getD_set_self hlen]
  have h1 : (1 : Int) ≤ max 1 (attackValue g.player + (r1 : Int)) := le_max_left ..
  dsimp only
  omega

theorem hp_fightRound_le (g : GameState) (rk : RoomKey) (ei : Nat) (o : Round)
    (rk' : RoomKey) (i : Nat) :
    (theEnemy ((fightRound g rk ei o).state) rk' i).hp ≤ (theEnemy g rk' i).hp := by
  have h := enemies_fightRound g rk ei o rk'
  rw [theEnemy, h]
  exact hp_playerStrike_le g rk ei o.r1 rk' i

theorem hp_fightRound_next_lt {g g' : GameState} {rk : RoomKey} {ei : Nat} {o : Round}
    (halive : 0 < (theEnemy g rk ei).hp) (h : fightRound g rk ei o = .next g') :
    (theEnemy g' rk ei).hp ≤ (theEnemy g rk ei).hp - 1 := by
  have he : (theEnemy g' rk ei).hp = (theEnemy (playerStrike g rk ei o.r1) rk ei).hp := by
    have h2 := enemies_fightRound g rk ei o rk
    rw [h] at h2
    simp only [RoundOut.state] at h2
    rw [theEnemy, h2, theEnemy]
  rw [he]
  exact hp_playerStrike_self_lt o.r1 halive

theorem hp_fightLoop_le {rk : RoomKey} {ei : Nat} {rounds : List Round}
    {g : GameState} {res : FightResult}
    (h : fightLoop rk ei g rounds = some res) (rk' : RoomKey) (i : Nat) :
    (theEnemy res.state rk' i).hp ≤ (theEnemy g rk' i).hp := by
  induction rounds generalizing g with
  | nil =>
    rw [fightLoop] at h
    split at h
    · cases h
    · cases h
      exact le_refl _
  | cons o os ih =>
    rw [fightLoop] at h
    split at h
    · rename_i hcond
      revert h
      rcases hfr : fightRound g rk ei o with g'' | g'' | g'' | g'' <;> intro h
      · cases h
        have := hp_fightRound_le g rk ei o rk' i
        rwa [hfr] at this
      · cases h
        have := hp_fightRound_le g rk ei o rk' i
        rwa [hfr] at this
      · cases h
        have := hp_fightRound_le g rk ei o rk' i
        rwa [hfr] at this
      · have h1 := ih h
        have h2 := hp_fightRound_le g rk ei o rk' i
        rw [hfr] at h2
        exact le_trans h1 h2
    · cases h
      exact le_refl _

/-- The combat loop always resolves within `enemy.hp.toNat` iterations:
every round's player strike costs the enemy at least one hit point. -/
theorem fightLoop_isSome {rk : RoomKey} {ei : Nat} {rounds : List Round}
    {g : GameState} (h : (theEnemy g rk ei).hp.toNat ≤ rounds.length) :
    (fightLoop rk ei g rounds).isSome = true := by
  induction rounds generalizing g with
  | nil =>
    rw [fightLoop]
    split
    · rename_i hcond
      exfalso
      simp only [List.length_nil, Nat.le_zero] at h
      omega
    · rfl
  | cons o os ih =>
    rw [fightLoop]
    split
    · rename_i hcond
      rcases hfr : fightRound g rk ei o with g'' | g'' | g'' | g'' <;>
        simp only [Option.isSome_some]
      have hlt := hp_fightRound_next_lt hcond.1 hfr
      apply ih
      simp only [List.length_cons] at h
      omega
    · rfl

/-- The invariant survives one combat round. -/
theorem inv_fightRound (g : GameState) (rk : RoomKey) (ei : Nat) (o : Round)
    (hi : Inv g) (hcur : g.player.currentRoom = rk)
    (halive : 0 < (theEnemy g rk ei).hp) :
    Inv ((fightRound g rk ei o).state) := by
  obtain ⟨hi1, hi2, hi3⟩ := hi
  have hlen := lt_length_of_hp_pos halive
  have hmem : theEnemy g rk ei ∈ (g.rooms rk).enemies := getD_mem _ hlen
  have halive' : ∃ e ∈ (g.rooms rk).enemies, 0 < e.hp := ⟨_, hmem, halive⟩
  have hnp : "small potion" ∉ ((g.rooms rk).items).map Item.name := hi2 rk halive'
  -- enemies of the outcome at each room
  have hene : ∀ rk', ((fightRound g rk ei o).state.rooms rk').enemies
      = ((playerStrike g rk ei o.r1).rooms rk').enemies :=
    enemies_fightRound g rk ei o
  refine ⟨?_, ?_, ?_⟩
  · -- names stay distinct
    intro rk'
    rcases items_fightRound g rk ei o rk' with hsame | ⟨hdead, hq, hrkcur, hdrop⟩
    · rw [NamesNodup, hsame]
      exact hi1 rk'
    · rw [NamesNodup, hdrop, List.map_append]
      rw [List.nodup_append]
      refine ⟨hi1 rk', by simp, ?_⟩
      have hmap : List.map Item.name [lootItem] = ["small potion"] := by decide
      rw [hmap, List.disjoint_singleton]
      have hrkk : rk' = rk := by rw [hrkcur, hcur]
      subst hrkk
      exact hnp
  · -- a room with an alive enemy holds no item named `small potion`
    intro rk' hex
    rcases items_fightRound g rk ei o rk' with hsame | ⟨hdead, hq, hrkcur, hdrop⟩
    · rw [hsame]
      apply hi2 rk'
      rcases hex with ⟨e, hemem, hehp⟩
      rw [hene rk'] at hemem
      by_cases hrk : rk' = rk
      · subst hrk
        rw [enemies_playerStrike_self] at hemem
        rcases List.mem_or_eq_of_mem_set hemem with hold | hnew
        · exact ⟨e, hold, hehp⟩
        · subst hnew
          dsimp only at hehp
          refine ⟨theEnemy g rk' ei, hmem, ?_⟩
          have h1 : (1 : Int) ≤ max 1 (attackValue g.player + (o.r1 : Int)) := le_max_left ..
          omega
      · rw [enemies_playerStrike_ne _ _ _ _ _ hrk] at hemem
        exact ⟨e, hemem, hehp⟩
    · -- the drop happened: the combat room's only enemy is now dead
      exfalso
      have hrkk : rk' = rk := by rw [hrkcur, hcur]
      subst hrkk
      rcases hex with ⟨e, hemem, hehp⟩
      rw [hene rk', enemies_playerStrike_self] at hemem
      have hone : ((g.rooms rk').enemies).length = 1 := by
        have := hi3 rk'
        omega
      have hei0 : ei = 0 := by omega
      subst hei0
      obtain ⟨a, ha⟩ := List.length_eq_one.mp hone
      rw [ha] at hemem
      simp only [List.set] at hemem
      rw [List.mem_singleton] at hemem
      subst hemem
      rw [theEnemy, enemies_playerStrike_self, getD_set_self hlen] at hdead
      dsimp only at hdead hehp
      omega
  · -- still at most one enemy per room
    intro rk'
    rw [hene rk']
    by_cases hrk : rk' = rk
    · subst hrk
      rw [enemies_playerStrike_self, List.length_set]
      exact hi3 rk'
    · rw [enemies_playerStrike_ne _ _ _ _ _ hrk]
      exact hi3 rk'

/-- The invariant survives a whole combat. -/
theorem inv_fightLoop {rk : RoomKey} {ei : Nat} {rounds : List Round}
    {g : GameState} {res : FightResult}
    (hi : Inv g) (hcur : g.player.currentRoom = rk)
    (h : fightLoop rk ei g rounds = some res) : Inv res.state := by
  induction rounds generalizing g with
  | nil =>
    rw [fightLoop] at h
    split at h
    · cases h
    · cases h
      exact hi
  | cons o os ih =>
    rw [fightLoop] at h
    split at h
    · rename_i hcond
      revert h
      rcases hfr : fightRound g rk ei o with g'' | g'' | g'' | g'' <;> intro h
      · cases h
        have hinv := inv_fightRound g rk ei o hi hcur hcond.1
        rw [hfr] at hinv
        simpa only [RoundOut.state, FightResult.state] using hinv
      · cases h
        have hinv := inv_fightRound g rk ei o hi hcur hcond.1
        rw [hfr] at hinv
        simpa only [RoundOut.state, FightResult.state] using hinv
      · cases h
        have hinv := inv_fightRound g rk ei o hi hcur hcond.1
        rw [hfr] at hinv
        simpa only [RoundOut.state, FightResult.state] using hinv
      · have hinv := inv_fightRound g rk ei o hi hcur hcond.1
        rw [hfr] at hinv
        simp only [RoundOut.state] at hinv
        exact ih hinv (by rw [fightRound_next_currentRoom g g'' rk ei o hfr, hcur]) h
    · cases h
      exact hi

/-! ### Dispatcher shape and step lemmas -/

/-- Every dispatched command either leaves the state alone or goes through
one of the four mutating handlers. -/
theorem handle_shape {g g' : GameState} {line : String} {rounds : List Round}
    {out : List String} (h : handleCommand g line rounds = some (g', out)) :
    g' = g ∨ (∃ d, g' = (cmd_go g d).1) ∨ (∃ n, g' = (cmd_take g n).1) ∨
    (∃ n, g' = (cmd_use g n).1) ∨ (∃ n, cmd_fight g n rounds = some (g', out)) := by
  unfold handleCommand at h
  rcases hw : pyWords line with _ | ⟨c, rest⟩ <;> rw [hw] at h <;> dsimp only at h
  · cases h
  · by_cases h1 : c = "help"
    · rw [if_pos h1] at h
      injection h with h'
      exact Or.inl (congrArg Prod.fst h').symm
    rw [if_neg h1] at h
    by_cases h2 : c = "look"
    · rw [if_pos h2] at h
      injection h with h'
      exact Or.inl (congrArg Prod.fst h').symm
    rw [if_neg h2] at h
    by_cases h3 : c = "inventory"
    · rw [if_pos h3] at h
      injection h with h'
      exact Or.inl (congrArg Prod.fst h').symm
    rw [if_neg h3] at h
    by_cases h4 : c = "go"
    · rw [if_pos h4] at h
      rcases rest with _ | ⟨d, ds⟩
      · injection h with h'
        exact Or.inl (congrArg Prod.fst h').symm
      · injection h with h'
        exact Or.inr (Or.inl ⟨d, (congrArg Prod.fst h').symm⟩)
    rw [if_neg h4] at h
    by_cases h5 : c = "take"
    · rw [if_pos h5] at h
      rcases rest with _ | ⟨d, ds⟩
      · injection h with h'
        exact Or.inl (congrArg Prod.fst h').symm
      · injection h with h'
        exact Or.inr (Or.inr (Or.inl ⟨joinWords (d :: ds), (congrArg Prod.fst h').symm⟩))
    rw [if_neg h5] at h
    by_cases h6 : c = "fight"
    · rw [if_pos h6] at h
      rcases rest with _ | ⟨d, ds⟩
      · injection h with h'
        exact Or.inl (congrArg Prod.fst h').symm
      · exact Or.inr (Or.inr (Or.inr (Or.inr ⟨joinWords (d :: ds), h⟩)))
    rw [if_neg h6] at h
    by_cases h7 : c = "use"
    · rw [if_pos h7] at h
      rcases rest with _ | ⟨d, ds⟩
      · injection h with h'
        exact Or.inl (congrArg Prod.fst h').symm
      · injection h with h'
        exact Or.inr (Or.inr (Or.inr (Or.inl ⟨joinWords (d :: ds), (congrArg Prod.fst h').symm⟩)))
    rw [if_neg h7] at h
    injection h with h'
    exact Or.inl (congrArg Prod.fst h').symm

theorem inv_cmd_fight {g g' : GameState} {n : String} {rounds : List Round}
    {out : List String} (hi : Inv g) (hf : cmd_fight g n rounds = some (g', out)) :
    Inv g' := by
  unfold cmd_fight at hf
  split at hf
  · injection hf with h'
    injection h' with hg hout
    subst hg
    exact hi
  · rw [Option.map_eq_some'] at hf
    obtain ⟨res, hres, heq⟩ := hf
    injection heq with h1 h2
    rw [← h1]
    exact inv_fightLoop hi rfl hres

/-- The invariant is preserved by every step of the game loop. -/
theorem inv_step {g g' : GameState} (hi : Inv g) (hs : Step g g') : Inv g' := by
  obtain ⟨line, rounds, out, hvalid, h⟩ := hs
  rcases handle_shape h with rfl | ⟨d, rfl⟩ | ⟨n, rfl⟩ | ⟨n, rfl⟩ | ⟨n, hf⟩
  · exact hi
  · exact inv_cmd_go g d hi
  · exact inv_cmd_take g n hi
  · exact inv_cmd_use g n hi
  · exact inv_cmd_fight hi hf

instance (l : List Item) : Decidable (NamesNodup l) := by
  unfold NamesNodup
  infer_instance

/-- The freshly constructed world satisfies the invariant. -/
theorem inv_initial : Inv initialState := by
  refine ⟨?_, ?_, ?_⟩ <;> intro rk <;> cases rk <;> decide

/-- Every reachable state satisfies the invariant. -/
theorem reachable_inv {g : GameState} (h : Reachable g) : Inv g := by
  induction h with
  | refl => exact inv_initial
  | tail _ hs ih => exact inv_step ih hs

/-- No enemy's health ever increases across a step. -/
theorem hp_step_le {g g' : GameState} (hs : Step g g') (rk : RoomKey) (i : Nat) :
    (theEnemy g' rk i).hp ≤ (theEnemy g rk i).hp := by
  obtain ⟨line, rounds, out, hvalid, h⟩ := hs
  rcases handle_shape h with rfl | ⟨d, rfl⟩ | ⟨n, rfl⟩ | ⟨n, rfl⟩ | ⟨n, hf⟩
  · exact le_refl _
  · rw [theEnemy, rooms_cmd_go, ← theEnemy]
  · rw [theEnemy, enemies_cmd_take, ← theEnemy]
  · rw [theEnemy, rooms_cmd_use, ← theEnemy]
  · unfold cmd_fight at hf
    split at hf
    · injection hf with h'
      injection h' with hg hout
      subst hg
      exact le_refl _
    · rw [Option.map_eq_some'] at hf
      obtain ⟨res, hres, heq⟩ := hf
      injection heq with h1 h2
      rw [← h1]
      exact hp_fightLoop_le hres rk i

/-- A scripted trace whose lines are already lower-cased and whose oracles
are valid only visits reachable states. -/
theorem reachable_of_runTrace :
    ∀ {tr : List (String × List Round)} {g g' : GameState},
      Relation.ReflTransGen Step initialState g →
      (∀ p ∈ tr, strLower p.1 = p.1 ∧ ∀ o ∈ p.2, ValidRound o) →
      runTrace g tr = some g' → Reachable g' := by
  intro tr
  induction tr with
  | nil =>
    intro g g' hg _ h
    rw [runTrace] at h
    cases h
    exact hg
  | cons p ps ih =>
    intro g g' hg hv h
    obtain ⟨line, rounds⟩ := p
    rw [runTrace] at h
    rcases hh : handleCommand g line rounds with _ | ⟨g1, out⟩ <;> rw [hh] at h <;>
      dsimp only at h
    · cases h
    · have hv0 := hv (line, rounds) (List.mem_cons_self _ _)
      have hstep : Step g g1 := by
        refine ⟨line, rounds, out, fun o ho => hv0.2 o ho, ?_⟩
        rw [show strLower line = line from hv0.1]
        exact hh
      exact ih (hg.tail hstep) (fun q hq => hv q (by simp [hq])) h

/-! ### The claims -/

/-- C1: in a combat round with both combatants alive, the player's damage
equals `max 1 (base attack + inventory attack bonuses + randint(0,3))` and
is subtracted from the enemy's health (in every outcome of the round); if
the enemy survives, the enemy's damage equals
`max 1 (enemy attack + randint(0,2))` and is subtracted from the player's
health; both damage amounts are at least 1 for every roll. -/
theorem claim_C1 (g : GameState) (rk : RoomKey) (ei : Nat) (o : Round)
    (he : 0 < (theEnemy g rk ei).hp) (hpl : 0 < g.player.hp)
    (hr1 : o.r1 ≤ 3) (hr2 : o.r2 ≤ 2) :
    (1 : Int) ≤ max 1 (g.player.baseAttack
        + (g.player.inventory.map Item.attack_bonus).sum + (o.r1 : Int)) ∧
    (theEnemy (playerStrike g rk ei o.r1) rk ei).hp
      = (theEnemy g rk ei).hp
        - max 1 (g.player.baseAttack
            + (g.player.inventory.map Item.attack_bonus).sum + (o.r1 : Int)) ∧
    (theEnemy ((fightRound g rk ei o).state) rk ei).hp
      = (theEnemy g rk ei).hp
        - max 1 (g.player.baseAttack
            + (g.player.inventory.map Item.attack_bonus).sum + (o.r1 : Int)) ∧
    (0 < (theEnemy (playerStrike g rk ei o.r1) rk ei).hp →
      (1 : Int) ≤ max 1 ((theEnemy g rk ei).attack + (o.r2 : Int)) ∧
      (enemyStrike (playerStrike g rk ei o.r1) rk ei o.r2).player.hp
        = g.player.hp - max 1 ((theEnemy g rk ei).attack + (o.r2 : Int))) := by
  have hlen := lt_length_of_hp_pos he
  have hstrike : (theEnemy (playerStrike g rk ei o.r1) rk ei)
      = { theEnemy g rk ei with
          hp := (theEnemy g rk ei).hp - max 1 (attackValue g.player + (o.r1 : Int)) } := by
    rw [theEnemy, enemies_playerStrike_self, getD_set_self hlen]
  refine ⟨le_max_left .., ?_, ?_, ?_⟩
  · exact congrArg Enemy.hp hstrike
  · have h2 := enemies_fightRound g rk ei o rk
    rw [theEnemy, h2, ← theEnemy]
    exact congrArg Enemy.hp hstrike
  · intro hsurv
    refine ⟨le_max_left .., ?_⟩
    rw [hp_enemyStrike, hstrike, player_playerStrike]

/-- C1 witness: the first round against the giant rat with rolls 2 and 1. -/
theorem claim_C1_witness :
    (theEnemy (playerStrike initialState .cellar 0 2) .cellar 0).hp
      = (theEnemy initialState .cellar 0).hp
        - max 1 (initialState.player.baseAttack
            + (initialState.player.inventory.map Item.attack_bonus).sum + (2 : Int)) ∧
    (enemyStrike (playerStrike initialState .cellar 0 2) .cellar 0 1).player.hp
      = initialState.player.hp
        - max 1 ((theEnemy initialState .cellar 0).attack + (1 : Int)) := by
  have h := claim_C1 initialState .cellar 0 ⟨2, 0, 1, "c"⟩
    (by decide) (by decide) (by decide) (by decide)
  exact ⟨h.2.1, (h.2.2.2 (by decide)).2⟩

/-- C2: choosing `flee` at the combat prompt relocates the player to the
foyer, terminates the combat loop at once, and changes neither the
player's health nor any enemy's health from their values just before the
flee. -/
theorem claim_C2 (g : GameState) (rk : RoomKey) (ei : Nat) (o : Round) (os : List Round)
    (he : 0 < (theEnemy g rk ei).hp) (hpl : 0 < g.player.hp)
    (hsurv : 0 < (theEnemy (playerStrike g rk ei o.r1) rk ei).hp)
    (hpsurv : 0 < (enemyStrike (playerStrike g rk ei o.r1) rk ei o.r2).player.hp)
    (hact : o.act = "flee") :
    fightLoop rk ei g (o :: os)
      = some (.fled (setPlayerRoom
          (enemyStrike (playerStrike g rk ei o.r1) rk ei o.r2) .foyer)) ∧
    (setPlayerRoom (enemyStrike (playerStrike g rk ei o.r1) rk ei o.r2)
        .foyer).player.currentRoom = .foyer ∧
    (setPlayerRoom (enemyStrike (playerStrike g rk ei o.r1) rk ei o.r2)
        .foyer).player.hp
      = (enemyStrike (playerStrike g rk ei o.r1) rk ei o.r2).player.hp ∧
    (setPlayerRoom (enemyStrike (playerStrike g rk ei o.r1) rk ei o.r2)
        .foyer).rooms
      = (enemyStrike (playerStrike g rk ei o.r1) rk ei o.r2).rooms := by
  refine ⟨?_, rfl, rfl, rfl⟩
  rw [fightLoop, if_pos ⟨he, hpl⟩]
  have h1 : fightRound g rk ei o
      = .fled (setPlayerRoom
          (enemyStrike (playerStrike g rk ei o.r1) rk ei o.r2) .foyer) := by
    unfold fightRound
    rw [if_neg (by omega), if_neg (by omega), hact, combatAction_flee]
  rw [h1]

/-- C2 witness: fleeing from the giant rat after one exchange of blows. -/
theorem claim_C2_witness :
    fightLoop RoomKey.cellar 0 initialState [⟨0, 0, 0, "flee"⟩]
      = some (.fled (setPlayerRoom
          (enemyStrike (playerStrike initialState .cellar 0 0) .cellar 0 0) .foyer)) :=
  (claim_C2 initialState .cellar 0 ⟨0, 0, 0, "flee"⟩ []
    (by decide) (by decide) (by decide) (by decide) rfl).1

/-- C3: `take <name>` moves the first case-insensitive match from the
current room's item list to the end of the inventory, after which the item
is no longer in the room and a second `take` of the same name fails with
no state change; with no match it fails with no state change. -/
theorem claim_C3 (g : GameState) (hreach : Reachable g) (name : String) :
    (findFirst (takePred (strLower name)) (g.rooms g.player.currentRoom).items = none →
      cmd_take g name = (g, ["No such item here."])) ∧
    (∀ i, findFirst (takePred (strLower name)) (g.rooms g.player.currentRoom).items
        = some i →
      takePred (strLower name)
          (((g.rooms g.player.currentRoom).items).getD i dItem) = true ∧
      (cmd_take g name).1.player.inventory
        = g.player.inventory ++ [((g.rooms g.player.currentRoom).items).getD i dItem] ∧
      ((cmd_take g name).1.rooms g.player.currentRoom).items
        = ((g.rooms g.player.currentRoom).items).eraseIdx i ∧
      findFirst (takePred (strLower name))
          (((cmd_take g name).1.rooms g.player.currentRoom).items) = none ∧
      cmd_take ((cmd_take g name).1) name
        = ((cmd_take g name).1, ["No such item here."])) := by
  refine ⟨cmd_take_notFound g name, ?_⟩
  intro i hfind
  obtain ⟨hinv, hcur, hoth, hcurroom, hhp⟩ := cmd_take_found g name i hfind
  have hpred := (findFirst_some dItem hfind).2
  have hnodup : NamesNodup ((g.rooms g.player.currentRoom).items) :=
    (reachable_inv hreach).1 g.player.currentRoom
  have hnone : findFirst (takePred (strLower name))
      (((cmd_take g name).1.rooms g.player.currentRoom).items) = none := by
    rw [hcur]
    exact findFirst_eraseIdx_none hnodup hfind
  refine ⟨hpred, hinv, hcur, hnone, ?_⟩
  apply cmd_take_notFound
  rw [hcurroom]
  exact hnone

/-- C3 witness: taking the small potion in the foyer, then failing to take
it again. -/
theorem claim_C3_witness :
    (cmd_take initialState "Small Potion").1.player.inventory
      = initialState.player.inventory
        ++ [((initialState.rooms RoomKey.foyer).items).getD 0 dItem] ∧
    cmd_take ((cmd_take initialState "Small Potion").1) "Small Potion"
      = ((cmd_take initialState "Small Potion").1, ["No such item here."]) := by
  have h := (claim_C3 initialState Relation.ReflTransGen.refl "Small Potion").2 0 (by decide)
  exact ⟨h.2.1, h.2.2.2.2⟩

/-- C4: `use <name>` on the first matching inventory item: positive heal
adds exactly the heal amount to health (uncapped) and removes exactly that
item; zero heal changes nothing (item not consumed); no match changes
nothing. -/
theorem claim_C4 (g : GameState) (name : String) :
    (findFirst (takePred (strLower name)) g.player.inventory = none →
      cmd_use g name = (g, ["You don\x27t have that item."])) ∧
    (∀ i, findFirst (takePred (strLower name)) g.player.inventory = some i →
      (0 < ((g.player.inventory).getD i dItem).heal →
        (cmd_use g name).1.player.hp
          = g.player.hp + ((g.player.inventory).getD i dItem).heal ∧
        (cmd_use g name).1.player.inventory = (g.player.inventory).eraseIdx i ∧
        ((cmd_use g name).1.player.inventory).length + 1
          = (g.player.inventory).length ∧
        (cmd_use g name).1.rooms = g.rooms ∧
        (cmd_use g name).1.player.currentRoom = g.player.currentRoom) ∧
      (((g.player.inventory).getD i dItem).heal = 0 →
        (cmd_use g name).1 = g)) := by
  constructor
  · intro hfind
    unfold cmd_use
    rw [hfind]
  · intro i hfind
    have hlt := (findFirst_some dItem hfind).1
    constructor
    · intro hheal
      unfold cmd_use
      rw [hfind]
      dsimp only
      rw [if_pos hheal]
      refine ⟨rfl, rfl, ?_, rfl, rfl⟩
      exact List.length_eraseIdx_add_one hlt
    · intro hheal
      unfold cmd_use
      rw [hfind]
      dsimp only
      rw [if_neg (by omega)]

/-- C4 witness: using the small potion heals 10 and consumes it; using the
glowing gem (heal 0) changes nothing. -/
theorem claim_C4_witness :
    ((cmd_use (cmd_take initialState "small potion").1 "small potion").1.player.hp
      = (cmd_take initialState "small potion").1.player.hp
        + (((cmd_take initialState "small potion").1.player.inventory).getD 0 dItem).heal) ∧
    ((cmd_use (cmd_take initialState "small potion").1 "small potion").1.player.inventory
      = ((cmd_take initialState "small potion").1.player.inventory).eraseIdx 0) := by
  have h := ((claim_C4 (cmd_take initialState "small potion").1 "small potion").2 0
    (by decide)).1 (by decide)
  exact ⟨h.1, h.2.1⟩

/-- C5: in every reachable state, no operation ever increases an enemy's
health (in particular a dead enemy stays dead), `find_enemy_in_room` only
selects alive enemies, a dead enemy is omitted from the description's
alive filter while staying in the room's enemy list, and `fight` with no
alive match changes nothing. -/
theorem claim_C5 (g : GameState) (hreach : Reachable g) :
    (∀ g', Step g g' → ∀ rk i, (theEnemy g' rk i).hp ≤ (theEnemy g rk i).hp) ∧
    (∀ name ei, findEnemyIdx g name = some ei →
      0 < (theEnemy g g.player.currentRoom ei).hp) ∧
    (∀ rk e, e ∈ (g.rooms rk).enemies → e.hp ≤ 0 →
      e ∉ (g.rooms rk).enemies.filter Enemy.alive ∧ e ∈ (g.rooms rk).enemies) ∧
    (∀ name rounds, findEnemyIdx g name = none →
      cmd_fight g name rounds = some (g, ["No such enemy here."])) := by
  refine ⟨?_, ?_, ?_, ?_⟩
  · intro g' hs rk i
    exact hp_step_le hs rk i
  · intro name ei hfind
    have hp := (findFirst_some dEnemy hfind).2
    rw [enemyPred] at hp
    simp only [Bool.and_eq_true] at hp
    have := hp.2
    rw [Enemy.alive, decide_eq_true_eq] at this
    exact this
  · intro rk e hmem hdead
    refine ⟨?_, hmem⟩
    intro hfil
    rw [List.mem_filter] at hfil
    have := hfil.2
    rw [Enemy.alive, decide_eq_true_eq] at this
    omega
  · intro name rounds hfind
    unfold cmd_fight
    rw [hfind]

/-- C5 witness: fighting an absent enemy from the foyer fails without any
state change, and the initial dead-enemy facts hold vacuously. -/
theorem claim_C5_witness :
    cmd_fight initialState "wraith" [] = some (initialState, ["No such enemy here."]) :=
  (claim_C5 initialState Relation.ReflTransGen.refl).2.2.2 "wraith" [] (by decide)

/-- The scripted trace that breaks inventory-name uniqueness: carry the
foyer's small potion into the cellar, slay the giant rat with a lucky roll,
let it drop its loot potion, and pick that up too. -/
def c6Trace : List (String × List Round) :=
  [("take small potion", []), ("go north", []), ("go west", []), ("go down", []),
   ("fight giant rat", [⟨3, 0, 0, ""⟩]), ("take small potion", [])]

/-- The state reached by `c6Trace`. -/
def c6State : GameState := (runTrace initialState c6Trace).getD initialState

/-- C6 counterexample: uniqueness of item names in the player's inventory
is violated in a reachable state (two items named `small potion`). -/
theorem claim_C6_cex :
    ¬ (∀ g, Reachable g →
        ((g.player.inventory.map Item.name).Nodup ∧
          ∀ rk, ((g.rooms rk).items.map Item.name).Nodup)) := by
  intro hclaim
  have hrun : runTrace initialState c6Trace = some c6State := rfl
  have hreach : Reachable c6State :=
    reachable_of_runTrace Relation.ReflTransGen.refl (by decide) hrun
  have hdup := (hclaim c6State hreach).1
  rw [show c6State.player.inventory.map Item.name = ["small potion", "small potion"]
    from by decide] at hdup
  exact (by decide : ¬ (["small potion", "small potion"] : List String).Nodup) hdup

/-- C6 (amended): in every reachable state, item names are unique within
each room's item list; inventory names need not be unique, since taking an
enemy's dropped loot potion while already carrying a small potion yields
two inventory items with the same name. -/
theorem claim_C6_amended (g : GameState) (h : Reachable g) (rk : RoomKey) :
    ((g.rooms rk).items.map Item.name).Nodup :=
  (reachable_inv h).1 rk

/-- C6 witness: room-name uniqueness at the initial state. -/
theorem claim_C6_witness :
    ((initialState.rooms RoomKey.foyer).items.map Item.name).Nodup :=
  claim_C6_amended initialState Relation.ReflTransGen.refl RoomKey.foyer

/-- C7: a line whose first token is not a recognized verb, or whose verb
is `go`/`take`/`fight`/`use` without an argument, produces a message and
returns the state unchanged (and the dispatcher returns normally). -/
theorem claim_C7 (g : GameState) (line : String) (rounds : List Round)
    (c : String) (rest : List String) (hw : pyWords line = c :: rest)
    (hbad : c ∉ ["help", "look", "inventory", "go", "take", "fight", "use"] ∨
      (c ∈ ["go", "take", "fight", "use"] ∧ rest = [])) :
    ∃ msgs, handleCommand g line rounds = some (g, msgs) ∧ msgs ≠ [] := by
  unfold handleCommand
  rw [hw]
  dsimp only
  rcases hbad with hbad | ⟨hin, hrest⟩
  · simp only [List.mem_cons, List.not_mem_nil, or_false, not_or] at hbad
    obtain ⟨n1, n2, n3, n4, n5, n6, n7⟩ := hbad
    rw [if_neg n1, if_neg n2, if_neg n3, if_neg n4, if_neg n5, if_neg n6, if_neg n7]
    exact ⟨_, rfl, by simp⟩
  · subst hrest
    simp only [List.mem_cons, List.not_mem_nil, or_false] at hin
    rcases hin with rfl | rfl | rfl | rfl
    · rw [if_neg (by decide), if_neg (by decide), if_neg (by decide), if_pos rfl]
      exact ⟨_, rfl, by simp⟩
    · rw [if_neg (by decide), if_neg (by decide), if_neg (by decide),
        if_neg (by decide), if_pos rfl]
      exact ⟨_, rfl, by simp⟩
    · rw [if_neg (by decide), if_neg (by decide), if_neg (by decide),
        if_neg (by decide), if_neg (by decide), if_pos rfl]
      exact ⟨_, rfl, by simp⟩
    · rw [if_neg (by decide), if_neg (by decide), if_neg (by decide),
        if_neg (by decide), if_neg (by decide), if_neg (by decide), if_pos rfl]
      exact ⟨_, rfl, by simp⟩

/-- C7 witness: an unknown verb and an argument-less `go` both leave the
initial state unchanged. -/
theorem claim_C7_witness :
    (∃ msgs, handleCommand initialState "dance" [] = some (initialState, msgs)
      ∧ msgs ≠ []) ∧
    (∃ msgs, handleCommand initialState "go" [] = some (initialState, msgs)
      ∧ msgs ≠ []) :=
  ⟨claim_C7 initialState "dance" [] "dance" [] (by decide) (Or.inl (by decide)),
   claim_C7 initialState "go" [] "go" [] (by decide) (Or.inr ⟨by decide, rfl⟩)⟩

/-- C8: when the player's strike brings the enemy to ≤ 0 health, combat
returns at once (no further enemy attack: the player's health is
untouched, the remaining oracle is ignored), and exactly when the loot
draw is below 2/5 (= 0.4) exactly one healing item with heal value 8 is
appended to the current room's item list; no other room's items change. -/
theorem claim_C8 (g : GameState) (rk : RoomKey) (ei : Nat) (o : Round) (os : List Round)
    (he : 0 < (theEnemy g rk ei).hp) (hpl : 0 < g.player.hp)
    (hdead : (theEnemy (playerStrike g rk ei o.r1) rk ei).hp ≤ 0) :
    ∃ gW, fightLoop rk ei g (o :: os) = some (.won gW) ∧
      gW.player.hp = g.player.hp ∧
      gW.player.currentRoom = g.player.currentRoom ∧
      (o.q < mkRat 2 5 →
        (gW.rooms g.player.currentRoom).items
          = (g.rooms g.player.currentRoom).items ++ [lootItem]) ∧
      (¬ o.q < mkRat 2 5 → ∀ rk', (gW.rooms rk').items = (g.rooms rk').items) ∧
      (∀ rk', rk' ≠ g.player.currentRoom → (gW.rooms rk').items = (g.rooms rk').items) ∧
      lootItem.heal = 8 := by
  refine ⟨if o.q < mkRat 2 5 then addLoot (playerStrike g rk ei o.r1)
           else playerStrike g rk ei o.r1, ?_, ?_, ?_, ?_, ?_, ?_, rfl⟩
  · rw [fightLoop, if_pos ⟨he, hpl⟩]
    have h1 : fightRound g rk ei o
        = .won (if o.q < mkRat 2 5 then addLoot (playerStrike g rk ei o.r1)
                else playerStrike g rk ei o.r1) := by
      unfold fightRound
      rw [if_pos hdead]
    rw [h1]
  · by_cases hq : o.q < mkRat 2 5
    · rw [if_pos hq]
      rfl
    · rw [if_neg hq]
      rfl
  · by_cases hq : o.q < mkRat 2 5
    · rw [if_pos hq]
      rfl
    · rw [if_neg hq]
      rfl
  · intro hq
    rw [if_pos hq]
    have hcur : (playerStrike g rk ei o.r1).player.currentRoom = g.player.currentRoom := rfl
    rw [← hcur, items_addLoot_self, items_playerStrike, hcur]
  · intro hq rk'
    rw [if_neg hq, items_playerStrike]
  · intro rk' hne
    by_cases hq : o.q < mkRat 2 5
    · rw [if_pos hq, items_addLoot_ne, items_playerStrike]
      exact hne
    · rw [if_neg hq, items_playerStrike]

/-- The state just before the C8 witness fight: the player has walked
north, west and down into the cellar. -/
def c8Start : GameState :=
  (cmd_go (cmd_go (cmd_go initialState "north").1 "west").1 "down").1

/-- C8 witness: slaying the giant rat with a maximal roll and a loot draw
of 1/3 spawns the loot potion in the cellar. -/
theorem claim_C8_witness :
    ∃ gW, fightLoop RoomKey.cellar 0 c8Start [⟨3, mkRat 1 3, 0, ""⟩]
        = some (.won gW) ∧
      gW.player.hp = c8Start.player.hp ∧
      ((mkRat 1 3 : Rat) < mkRat 2 5 →
        (gW.rooms RoomKey.cellar).items
          = (c8Start.rooms RoomKey.cellar).items ++ [lootItem]) := by
  obtain ⟨gW, h1, h2, h3, h4, h5, h6, h7⟩ :=
    claim_C8 c8Start .cellar 0 ⟨3, mkRat 1 3, 0, ""⟩ []
      (by decide) (by decide) (by decide)
  exact ⟨gW, h1, h2, h4⟩

/-- C9: `go <direction>`: an absent direction leaves everything unchanged
with a failure message; a present one reassigns the player's current room
to the mapped target and prints the movement line and that room's full
description. -/
theorem claim_C9 (g : GameState) (direction : String) :
    (((g.rooms g.player.currentRoom).exits).find? (fun pr => pr.1 == direction) = none →
      cmd_go g direction = (g, ["You can\x27t go that way."])) ∧
    (∀ pr, ((g.rooms g.player.currentRoom).exits).find? (fun pr => pr.1 == direction)
        = some pr →
      (cmd_go g direction).1 = setPlayerRoom g pr.2 ∧
      (cmd_go g direction).1.player.currentRoom = pr.2 ∧
      (cmd_go g direction).1.rooms = g.rooms ∧
      (cmd_go g direction).1.player.hp = g.player.hp ∧
      (cmd_go g direction).1.player.inventory = g.player.inventory ∧
      (cmd_go g direction).2
        = ["You go " ++ direction ++ " to the " ++ (g.rooms pr.2).name ++ ".",
           Room.get_description (g.rooms pr.2)]) := by
  constructor
  · intro hfind
    unfold cmd_go
    rw [hfind]
  · intro pr hfind
    unfold cmd_go
    rw [hfind]
    exact ⟨rfl, rfl, rfl, rfl, rfl, rfl⟩

/-- C9 witness: from the foyer, `go up` fails and `go north` moves to the
great hall. -/
theorem claim_C9_witness :
    cmd_go initialState "up" = (initialState, ["You can\x27t go that way."]) ∧
    (cmd_go initialState "north").1.player.currentRoom = RoomKey.hall := by
  constructor
  · exact (claim_C9 initialState "up").1 (by decide)
  · exact ((claim_C9 initialState "north").2 ("north", RoomKey.hall) (by decide)).2.1

/-- C10: each combat-loop iteration that continues costs the enemy at
least one hit point, so given at least `enemy.hp.toNat` oracle rounds the
loop always resolves (victory, death, flight, or the loop guard failing),
regardless of the in-combat actions taken. -/
theorem claim_C10 (g : GameState) (rk : RoomKey) (ei : Nat) (rounds : List Round)
    (h : (theEnemy g rk ei).hp.toNat ≤ rounds.length) :
    (fightLoop rk ei g rounds).isSome = true ∧
    (∀ o g', 0 < (theEnemy g rk ei).hp → fightRound g rk ei o = .next g' →
      (theEnemy g' rk ei).hp + 1 ≤ (theEnemy g rk ei).hp) := by
  refine ⟨fightLoop_isSome h, ?_⟩
  intro o g' halive hfr
  have := hp_fightRound_next_lt halive hfr
  omega

/-- C10 witness: eight oracle rounds suffice against the eight-hit-point
giant rat even if the player only ever continues. -/
theorem claim_C10_witness :
    (fightLoop RoomKey.cellar 0 initialState
      (List.replicate 8 ⟨0, 1, 0, "c"⟩)).isSome = true :=
  (claim_C10 initialState .cellar 0 (List.replicate 8 ⟨0, 1, 0, "c"⟩) (by decide)).1

end Adventure
